import Mathlib

/-!
Verification development for the QuarkQuery ingestion pipeline.

The Python sources (`src/ingestion/chunk_and_embed.py` and
`src/ingestion/download_papers.py`) are shallowly embedded below.
Python strings are modelled as lists of characters (`PyStr`), Python
dictionaries holding chunk data as the `Chunk` structure, in-place
mutation of chunk dictionaries as explicit state passing (the returned
collection is the post-state of the input collection), Python
exceptions as `Except`/`Option` results, the filesystem as an
association list from file names to file bodies, and the network as a
function from a URL to an optional HTTP response (`none` models a
`requests` exception).  Embedding vectors are treated as an opaque type
parameter: the pipeline never inspects their numeric content.
-/

namespace QuarkQuery

/-- Python `str` values are modelled as lists of characters. -/
abbrev PyStr := List Char

/-- Python `str.lower()`. -/
def pyLower (s : PyStr) : PyStr := s.map Char.toLower

/-- Python `str.strip()` with no argument: remove whitespace from both ends. -/
def pyStrip (s : PyStr) : PyStr :=
  ((s.dropWhile Char.isWhitespace).reverse.dropWhile Char.isWhitespace).reverse

/-- Python `sep.join(words)`. -/
def pyJoin (sep : PyStr) : List PyStr → PyStr
  | [] => []
  | w :: ws =>
    match ws with
    | [] => w
    | _ :: _ => w ++ sep ++ pyJoin sep ws

/-- Accumulator loop implementing Python `str.split()` (split on runs of
whitespace, dropping empty pieces).  `acc` holds the characters of the
word currently being read, in reverse. -/
def wordsAux : List Char → List Char → List PyStr
  | [], acc => if acc = [] then [] else [acc.reverse]
  | c :: cs, acc =>
    if c.isWhitespace then
      if acc = [] then wordsAux cs [] else acc.reverse :: wordsAux cs []
    else wordsAux cs (c :: acc)

/-- Python `str.split()` with no argument (`words = text.split()` in
`TextChunker.chunk_text`). -/
def pySplitWs (s : PyStr) : List PyStr := wordsAux s []

/-! ### Chunker (`src/ingestion/chunk_and_embed.py`) -/

/-- Constant `DEFAULT_CHUNK_SIZE = 500`. -/
def DEFAULT_CHUNK_SIZE : Nat := 500

/-- Constant `DEFAULT_CHUNK_OVERLAP = 100`. -/
def DEFAULT_CHUNK_OVERLAP : Nat := 100

/-- Constant `MIN_CHUNK_LENGTH = 50`. -/
def MIN_CHUNK_LENGTH : Nat := 50

/-- One chunk dictionary, as built by `TextChunker.chunk_text`.  The
Python code nests `chunk_index`, `start_word` and `end_word` inside the
metadata dictionary next to the inherited document metadata; here the
inherited part is kept in `meta` and the three computed fields are
flattened into the structure.  `embedding = none` models the absence of
the `"embedding"` key before `generate_embeddings` runs. -/
structure Chunk (α : Type) where
  text : PyStr
  meta : List (PyStr × PyStr)
  chunk_index : Nat
  start_word : Nat
  end_word : Nat
  embedding : Option α
deriving DecidableEq, Repr

/-- The ascending values of Python `range(0, stop, step)` for `step ≥ 1`:
`0, step, 2*step, ...` strictly below `stop`. -/
def rangeStep (stop step : Nat) : List Nat :=
  (List.range ((stop + step - 1) / step)).map (· * step)

/-- Python `range(0, stop, step)` where `step` may be any integer:
`step = 0` raises `ValueError`, a negative `step` (with start `0` and
`stop ≥ 0`) yields the empty range. -/
def pyRange0 (stop : Nat) (step : Int) : Except Unit (List Nat) :=
  if step = 0 then .error ()
  else if step < 0 then .ok []
  else .ok (rangeStep stop step.toNat)

/-- The slice `words[i:i + chunk_size]` from `TextChunker.chunk_text`. -/
def windowWords (chunk_size : Nat) (words : List PyStr) (i : Nat) : List PyStr :=
  (words.drop i).take chunk_size

/-- The trimmed-length filter of `TextChunker.chunk_text`: a window is
kept exactly when `len(chunk_text.strip()) > MIN_CHUNK_LENGTH`. -/
def windowPasses (chunk_size : Nat) (words : List PyStr) (i : Nat) : Bool :=
  MIN_CHUNK_LENGTH < (pyStrip (pyJoin [' '] (windowWords chunk_size words i))).length

/-- The loop body of `TextChunker.chunk_text`: build the window starting
at `i`, and append it with `chunk_index = len(chunks)` when it passes the
minimum-length filter. -/
def chunkStep {α : Type} (chunk_size : Nat) (meta : List (PyStr × PyStr))
    (words : List PyStr) (acc : List (Chunk α)) (i : Nat) : List (Chunk α) :=
  let cw := windowWords chunk_size words i
  if windowPasses chunk_size words i then
    acc ++ [⟨pyJoin [' '] cw, meta, acc.length, i, i + cw.length, none⟩]
  else acc

/-- The full `for` loop of `TextChunker.chunk_text` over the window start
offsets. -/
def buildChunks {α : Type} (chunk_size : Nat) (meta : List (PyStr × PyStr))
    (words : List PyStr) (starts : List Nat) : List (Chunk α) :=
  starts.foldl (chunkStep chunk_size meta words) []

/-- Source `TextChunker.chunk_text` after the initial `text.split()`:
iterate `range(0, len(words), chunk_size - chunk_overlap)`. -/
def chunkWords {α : Type} (chunk_size chunk_overlap : Nat)
    (meta : List (PyStr × PyStr)) (words : List PyStr) :
    Except Unit (List (Chunk α)) :=
  match pyRange0 words.length ((chunk_size : Int) - (chunk_overlap : Int)) with
  | .error _ => .error ()
  | .ok starts => .ok (buildChunks chunk_size meta words starts)

/-- Source `TextChunker.chunk_text`. -/
def chunk_text {α : Type} (chunk_size chunk_overlap : Nat)
    (meta : List (PyStr × PyStr)) (text : PyStr) : Except Unit (List (Chunk α)) :=
  chunkWords chunk_size chunk_overlap meta (pySplitWs text)

/-- Source `TextChunker.__init__`: the constructor stores `chunk_size` and
`chunk_overlap` without any validation, so it never fails. -/
def TextChunker_init (chunk_size chunk_overlap : Nat) : Except Unit (Nat × Nat) :=
  .ok (chunk_size, chunk_overlap)

/-! ### Embedding stage (`src/ingestion/chunk_and_embed.py`) -/

/-- Attaching one vector: `chunk["embedding"] = embeddings_list[i]`. -/
def withEmbedding {α : Type} (c : Chunk α) (e : α) : Chunk α :=
  { c with embedding := some e }

/-- The attachment loop of `EmbeddingGenerator.generate_embeddings`:
`for i, chunk in enumerate(chunks): chunk["embedding"] = embeddings_list[i]`.
The list `encoded` is the output of the external embedding service
(`self.model.encode(texts, ...)`).  The loop mutates the chunk
dictionaries in place and then returns the same collection; an
`IndexError` is raised at the first chunk with no vector at its index.
The `.error` payload is the post-state of the input collection at the
moment the exception is raised: chunks before the failing index carry
their embedding, the rest are untouched. -/
def generate_embeddings {α : Type} :
    List (Chunk α) → List α → Except (List (Chunk α)) (List (Chunk α))
  | [], _ => .ok []
  | c :: cs, [] => .error (c :: cs)
  | c :: cs, e :: es =>
    match generate_embeddings cs es with
    | .ok cs' => .ok (withEmbedding c e :: cs')
    | .error cs' => .error (withEmbedding c e :: cs')

/-- Steps 2-3 of `main`: run `generate_embeddings` and, only when it
returns normally, write the chunk artifact
(`save_chunks_with_embeddings`).  `none` models an aborted run with no
artifact written. -/
def embed_and_save {α : Type} (chunks : List (Chunk α)) (encoded : List α) :
    Option (List (Chunk α)) :=
  match generate_embeddings chunks encoded with
  | .ok cs => some cs
  | .error _ => none

/-! ### Downloader (`src/ingestion/download_papers.py`) -/

/-- Constant `BASE_URLS`. -/
def BASE_URLS : List PyStr :=
  ["https://arxiv.org/pdf".toList,
   "https://arxiv.org/pdf/hep-th".toList,
   "https://arxiv.org/pdf/hep-ph".toList]

/-- Constant `DEFAULT_VERSION = "v1"`. -/
def DEFAULT_VERSION : PyStr := "v1".toList

/-- Constant `OLD_FORMAT_LENGTH = 7`. -/
def OLD_FORMAT_LENGTH : Nat := 7

/-- Constant `MIN_PDF_SIZE_BYTES = 1000`. -/
def MIN_PDF_SIZE_BYTES : Nat := 1000

/-- Constant `PDF_MAGIC_BYTES = b'%PDF'` (file bodies are modelled as character
lists). -/
def PDF_MAGIC_BYTES : List Char := "%PDF".toList

/-- Constant `DEFAULT_CPU_COUNT = 4`. -/
def DEFAULT_CPU_COUNT : Nat := 4

/-- Constant `WORKER_MULTIPLIER = 2`. -/
def WORKER_MULTIPLIER : Nat := 2

/-- Source `ArxivDownloader.normalize_arxiv_id`: strip everything from the
first `'v'` on (`arxiv_id.split('v')[0]`); the filename branch returns
the same cleaned identifier in both of its arms. -/
def normalize_arxiv_id (arxiv_id : PyStr) : PyStr × PyStr :=
  let clean := (arxiv_id.splitOn 'v').headI
  (clean, clean)

/-- Case 4 of `get_arxiv_urls`: the legacy path-segmented variant
`f"{base_url}/{url_id[:2]}/{url_id[2:]}.pdf"`. -/
def pathVariant (base url_id : PyStr) : PyStr :=
  base ++ ('/' :: url_id.take 2) ++ ('/' :: url_id.drop 2) ++ ".pdf".toList

/-- The URLs appended for one `base_url` by the loop in
`get_arxiv_urls` (cases 1-4, in order). -/
def urlsForBase (arxiv_id url_id : PyStr) (base : PyStr) : List PyStr :=
  let version := (arxiv_id.splitOn 'v').getD 1 []
  [base ++ '/' :: url_id ++ ".pdf".toList]
  ++ (if 'v' ∈ arxiv_id ∧ version ≠ [] then
        [base ++ '/' :: url_id ++ 'v' :: version ++ ".pdf".toList]
      else [])
  ++ [base ++ '/' :: url_id ++ DEFAULT_VERSION ++ ".pdf".toList]
  ++ (if url_id.length = OLD_FORMAT_LENGTH ∧ '.' ∉ url_id then
        [pathVariant base url_id]
      else [])

/-- The deduplication loop at the end of `get_arxiv_urls`: keep the
first occurrence of each URL, tracking the URLs already `seen`. -/
def dedupFirst : List PyStr → List PyStr → List PyStr
  | [], _ => []
  | u :: us, seen =>
    if u ∈ seen then dedupFirst us seen else u :: dedupFirst us (u :: seen)

/-- The `urls` list of `get_arxiv_urls` before deduplication. -/
def rawUrls (arxiv_id : PyStr) : List PyStr :=
  BASE_URLS.flatMap (urlsForBase arxiv_id (normalize_arxiv_id arxiv_id).1)

/-- Source `ArxivDownloader.get_arxiv_urls`. -/
def get_arxiv_urls (arxiv_id : PyStr) : List PyStr :=
  dedupFirst (rawUrls arxiv_id) []

/-- One HTTP response, as consumed by `download_paper`.  The
`Content-Disposition` filename extraction (a regular expression in the
source) is abstracted as the already-parsed optional field
`cd_filename`; a missing `content-type` header is the empty string, as
produced by `response.headers.get('content-type', '')`. -/
structure Response where
  status : Nat
  content_type : PyStr
  cd_filename : Option PyStr
  body : List Char

/-- The local paper directory: an association list from file names to
file bodies. -/
abbrev Fs := List (PyStr × List Char)

/-- Writing a file (`open(filepath, 'wb')` truncates any existing file
of the same name). -/
def fsWrite (fs : Fs) (name : PyStr) (body : List Char) : Fs :=
  (name, body) :: fs.filter (fun p => p.1 != name)

/-- Deleting a file, `filepath.unlink()`. -/
def fsUnlink (fs : Fs) (name : PyStr) : Fs :=
  fs.filter (fun p => p.1 != name)

/-- The result of `download_paper` for one identifier, abstracting the
`(success, message, index)` triple: `download_all` classifies a success
whose message starts with `"Already exists"` as skipped, any other
success as downloaded, and a `False` flag as failed (the failure message
reports how many URLs were tried). -/
inductive Outcome
  | downloaded (name : PyStr)
  | alreadyExists (name : PyStr)
  | failed (tried : Nat)
deriving DecidableEq, Repr

/-- Whether a file name matches the glob pattern
`f"{filename}*.pdf"` from `download_paper`. -/
def matchesGlob (filename name : PyStr) : Bool :=
  filename.isPrefixOf name && (".pdf".toList).isSuffixOf (name.drop filename.length)

/-- The PDF acceptance test of `download_paper` on a 200 response, as a
rejection flag: `'pdf' not in content_type.lower() and not
url.endswith('.pdf')` makes the loop skip to the next candidate. -/
def pdf_reject (content_type url : PyStr) : Bool :=
  !(decide ("pdf".toList <:+: pyLower content_type))
    && !(decide (".pdf".toList <:+ url))

/-- The candidate loop of `download_paper`.  The network is a function
from URL to optional response; `none` models a raised
`requests` exception, handled by `continue`.  Returns the downloaded
file name on success, threading the filesystem and counting every
`session.get` call. -/
def tryUrls (net : PyStr → Option Response) (filename : PyStr) :
    List PyStr → Fs → Nat → (Option PyStr × Nat × Fs)
  | [], fs, reqs => (none, reqs, fs)
  | url :: rest, fs, reqs =>
    match net url with
    | none => tryUrls net filename rest fs (reqs + 1)
    | some r =>
      if r.status = 200 then
        if pdf_reject r.content_type url then
          tryUrls net filename rest fs (reqs + 1)
        else
          let dlname := r.cd_filename.getD (filename ++ ".pdf".toList)
          let fs1 := fsWrite fs dlname r.body
          if MIN_PDF_SIZE_BYTES < r.body.length ∧ r.body.take 4 = PDF_MAGIC_BYTES then
            (some dlname, reqs + 1, fs1)
          else
            tryUrls net filename rest (fsUnlink fs1 dlname) (reqs + 1)
      else tryUrls net filename rest fs (reqs + 1)

/-- Source `ArxivDownloader.download_paper`: check the local directory for a
file matching `f"{filename}*.pdf"` first and short-circuit to
`alreadyExists`; otherwise iterate the URL candidates.  Returns the
outcome, the number of network requests made, and the final filesystem
state. -/
def download_paper (net : PyStr → Option Response) (fs : Fs) (arxiv_id : PyStr) :
    Outcome × Nat × Fs :=
  let filename := (normalize_arxiv_id arxiv_id).2
  match (fs.map Prod.fst).filter (matchesGlob filename) with
  | name :: _ => (.alreadyExists name, 0, fs)
  | [] =>
    let urls := get_arxiv_urls arxiv_id
    match tryUrls net filename urls fs 0 with
    | (some name, reqs, fs') => (.downloaded name, reqs, fs')
    | (none, reqs, fs') => (.failed urls.length, reqs, fs')

/-- Source `ArxivDownloader.download_all` over an explicit identifier list:
per-identifier outcomes in input order, the total number of network
requests, and the final filesystem state.  (The thread pool runs the
per-identifier tasks independently; completion order only affects
progress printing, so the fold is a faithful model of the outcome
computation.) -/
def download_all (net : PyStr → Option Response) (fs : Fs) (ids : List PyStr) :
    List (PyStr × Outcome) × Nat × Fs :=
  ids.foldl
    (fun st id =>
      let r := download_paper net st.2.2 id
      (st.1 ++ [(id, r.1)], st.2.1 + r.2.1, r.2.2))
    ([], 0, fs)

/-- Python `x or default` on `os.cpu_count()`: `None` and `0` are falsy. -/
def pyOrNat : Option Nat → Nat → Nat
  | none, d => d
  | some 0, d => d
  | some n, _ => n

/-- The default worker count computed in `download_all` when
`max_workers is None`:
`min(len(arxiv_ids), (os.cpu_count() or DEFAULT_CPU_COUNT) * WORKER_MULTIPLIER)`. -/
def download_all_max_workers (num_ids : Nat) (cpu_count : Option Nat) : Nat :=
  min num_ids (pyOrNat cpu_count DEFAULT_CPU_COUNT * WORKER_MULTIPLIER)

/-! ### Auxiliary definitions for the proofs -/

/-- The surviving windows of one chunking run, built from the window
start offsets that pass the minimum-length filter, numbering chunks
from `k` on (the recursion-friendly form of the `buildChunks` fold). -/
def buildFrom {α : Type} (chunk_size : Nat) (meta : List (PyStr × PyStr))
    (words : List PyStr) : Nat → List Nat → List (Chunk α)
  | _, [] => []
  | k, i :: is =>
    if windowPasses chunk_size words i then
      ⟨pyJoin [' '] (windowWords chunk_size words i), meta, k, i,
        i + (windowWords chunk_size words i).length, none⟩
        :: buildFrom chunk_size meta words (k + 1) is
    else buildFrom chunk_size meta words k is

/-- Sample chunk used by the embedding counterexamples and witnesses. -/
def cA : Chunk Nat := ⟨"a".toList, [], 0, 0, 1, none⟩

/-- A second sample chunk. -/
def cB : Chunk Nat := ⟨"b".toList, [], 1, 1, 2, none⟩

/-- The single chunk the chunker produces from a 60-word document of
one-letter words, at window size 500 and overlap 100. -/
def c60 : Chunk Nat :=
  ⟨pyJoin [' '] (List.replicate 60 ['w']), [], 0, 0, 60, none⟩

/-- A 1000-word document: 1000 copies of the word `"w"`, separated by
single spaces. -/
def wText : PyStr := pyJoin [' '] (List.replicate 1000 ['w'])

/-- A network that fails every request (no response), for the
second-run witness. -/
def netNone : PyStr → Option Response := fun _ => none

/-- A one-file local directory containing `9806072.pdf`. -/
def fsOne : Fs := [("9806072.pdf".toList, [])]

set_option maxRecDepth 8000

/-! ### Lemmas about the deduplication loop -/

theorem dedupFirst_sublist : ∀ (l seen : List PyStr), (dedupFirst l seen).Sublist l
  | [], _ => by simp [dedupFirst]
  | u :: us, seen => by
    unfold dedupFirst
    by_cases h : u ∈ seen
    · rw [if_pos h]
      exact (dedupFirst_sublist us seen).cons u
    · rw [if_neg h]
      exact (dedupFirst_sublist us (u :: seen)).cons₂ u

theorem mem_dedupFirst (x : PyStr) :
    ∀ (l seen : List PyStr), x ∈ dedupFirst l seen ↔ x ∈ l ∧ x ∉ seen
  | [], seen => by simp [dedupFirst]
  | u :: us, seen => by
    unfold dedupFirst
    by_cases h : u ∈ seen
    · rw [if_pos h, mem_dedupFirst x us seen]
      constructor
      · rintro ⟨hx, hs⟩
        exact ⟨List.mem_cons_of_mem _ hx, hs⟩
      · rintro ⟨hx, hs⟩
        rcases List.mem_cons.mp hx with he | ht
        · exact absurd (he ▸ h) hs
        · exact ⟨ht, hs⟩
    · rw [if_neg h]
      constructor
      · intro hmem
        rcases List.mem_cons.mp hmem with he | ht
        · exact ⟨List.mem_cons.mpr (Or.inl he), he ▸ h⟩
        · obtain ⟨hx, hs⟩ := (mem_dedupFirst x us (u :: seen)).mp ht
          exact ⟨List.mem_cons_of_mem _ hx, fun hxs => hs (List.mem_cons_of_mem _ hxs)⟩
      · rintro ⟨hx, hs⟩
        rcases List.mem_cons.mp hx with he | ht
        · exact List.mem_cons.mpr (Or.inl he)
        · by_cases hxu : x = u
          · exact List.mem_cons.mpr (Or.inl hxu)
          · refine List.mem_cons.mpr (Or.inr ((mem_dedupFirst x us (u :: seen)).mpr ⟨ht, ?_⟩))
            intro hxs
            rcases List.mem_cons.mp hxs with h1 | h2
            · exact hxu h1
            · exact hs h2

theorem dedupFirst_nodup : ∀ (l seen : List PyStr), (dedupFirst l seen).Nodup
  | [], _ => by simp [dedupFirst]
  | u :: us, seen => by
    unfold dedupFirst
    by_cases h : u ∈ seen
    · rw [if_pos h]
      exact dedupFirst_nodup us seen
    · rw [if_neg h]
      refine List.nodup_cons.mpr ⟨fun hmem => ?_, dedupFirst_nodup us (u :: seen)⟩
      exact ((mem_dedupFirst u us (u :: seen)).mp hmem).2 (List.mem_cons_self u seen)

theorem rawUrls_ne_nil (arxiv_id : PyStr) : rawUrls arxiv_id ≠ [] := by
  simp [rawUrls, BASE_URLS, urlsForBase]

theorem dedupFirst_ne_nil {l : List PyStr} (h : l ≠ []) : dedupFirst l [] ≠ [] := by
  cases l with
  | nil => exact absurd rfl h
  | cons u us => simp [dedupFirst]

/-- C9: for every non-empty identifier the URL candidate list is
non-empty, duplicate-free, a sublist of the raw (pre-deduplication)
candidate sequence — so first-seen order is preserved — and has exactly
the same members as the raw sequence. -/
theorem get_arxiv_urls_nonempty_nodup (arxiv_id : PyStr) (_hid : arxiv_id ≠ []) :
    get_arxiv_urls arxiv_id ≠ []
    ∧ (get_arxiv_urls arxiv_id).Nodup
    ∧ (get_arxiv_urls arxiv_id).Sublist (rawUrls arxiv_id)
    ∧ ∀ u, u ∈ get_arxiv_urls arxiv_id ↔ u ∈ rawUrls arxiv_id := by
  refine ⟨dedupFirst_ne_nil (rawUrls_ne_nil arxiv_id), dedupFirst_nodup _ _,
    dedupFirst_sublist _ _, fun u => ?_⟩
  rw [get_arxiv_urls, mem_dedupFirst]
  simp

/-- Witness for C9 at the concrete identifier `"1503.06237"`. -/
theorem get_arxiv_urls_nonempty_nodup_witness :
    get_arxiv_urls "1503.06237".toList ≠ []
    ∧ (get_arxiv_urls "1503.06237".toList).Nodup
    ∧ (get_arxiv_urls "1503.06237".toList).Sublist (rawUrls "1503.06237".toList)
    ∧ ∀ u, u ∈ get_arxiv_urls "1503.06237".toList ↔ u ∈ rawUrls "1503.06237".toList :=
  get_arxiv_urls_nonempty_nodup "1503.06237".toList (by decide)

/-! ### Every candidate ends in ".pdf" (C10) -/

theorem suffix_of_append_right {s b : PyStr} (a : PyStr) (h : s <:+ b) : s <:+ a ++ b :=
  h.trans (List.suffix_append a b)

theorem mem_of_mem_ite_nil {P : Prop} [Decidable P] {u : PyStr} {l : List PyStr}
    (h : u ∈ if P then l else []) : u ∈ l ∧ P := by
  split at h
  · exact ⟨h, by assumption⟩
  · exact absurd h (List.not_mem_nil u)

theorem mem_urlsForBase_pdf_suffix {arxiv_id url_id base u : PyStr}
    (h : u ∈ urlsForBase arxiv_id url_id base) : ".pdf".toList <:+ u := by
  simp only [urlsForBase, List.mem_append] at h
  rcases h with ((h | h) | h) | h
  · rcases List.mem_cons.mp h with he | he
    · subst he
      exact ⟨base ++ '/' :: url_id, by simp⟩
    · exact absurd he (List.not_mem_nil u)
  · obtain ⟨h, -⟩ := mem_of_mem_ite_nil h
    rcases List.mem_cons.mp h with he | he
    · subst he
      exact ⟨base ++ '/' :: url_id ++ 'v' :: (arxiv_id.splitOn 'v').getD 1 [], by simp⟩
    · exact absurd he (List.not_mem_nil u)
  · rcases List.mem_cons.mp h with he | he
    · subst he
      exact ⟨base ++ '/' :: url_id ++ DEFAULT_VERSION, by simp⟩
    · exact absurd he (List.not_mem_nil u)
  · obtain ⟨h, -⟩ := mem_of_mem_ite_nil h
    rcases List.mem_cons.mp h with he | he
    · subst he
      exact ⟨base ++ ('/' :: url_id.take 2) ++ ('/' :: url_id.drop 2), by simp [pathVariant]⟩
    · exact absurd he (List.not_mem_nil u)

theorem mem_rawUrls_pdf_suffix {arxiv_id u : PyStr} (h : u ∈ rawUrls arxiv_id) :
    ".pdf".toList <:+ u := by
  rw [rawUrls, List.mem_flatMap] at h
  obtain ⟨base, -, hu⟩ := h
  exact mem_urlsForBase_pdf_suffix hu

/-- C10: every candidate URL produced by `get_arxiv_urls` ends with
`".pdf"`, so in the 200-response acceptance test of `download_paper`
the `url.endswith('.pdf')` disjunct is always true and the rejection
flag is `false` whatever the content type is: the content-type check
can never cause a candidate to be rejected. -/
theorem get_arxiv_urls_always_pdf (arxiv_id u : PyStr)
    (h : u ∈ get_arxiv_urls arxiv_id) :
    (".pdf".toList <:+ u) ∧ ∀ content_type : PyStr, pdf_reject content_type u = false := by
  have hs : ".pdf".toList <:+ u :=
    mem_rawUrls_pdf_suffix (((mem_dedupFirst u _ _).mp h).1)
  refine ⟨hs, fun content_type => ?_⟩
  rw [pdf_reject, decide_eq_true hs]
  simp

/-- Witness for C10 at the identifier `"1503.06237"`, the first
candidate it generates, and a non-PDF content type. -/
theorem get_arxiv_urls_always_pdf_witness :
    (".pdf".toList <:+ "https://arxiv.org/pdf/1503.06237.pdf".toList)
    ∧ ∀ content_type : PyStr,
        pdf_reject content_type "https://arxiv.org/pdf/1503.06237.pdf".toList = false :=
  get_arxiv_urls_always_pdf "1503.06237".toList
    "https://arxiv.org/pdf/1503.06237.pdf".toList (by decide)

/-! ### The legacy path-segmented variant (C8) -/

/-- Counterexample to C8 as stated: the resolver's test is
`len(url_id) == 7 and '.' not in url_id`, which does not require
digits.  For the identifier `"abcdefg"` (length 7, no period, not a
digit string) the path-segmented variant is emitted for the first base
location, so "exactly when the canonical identifier is 7 digits" is
false. -/
theorem path_variant_not_only_digits :
    pathVariant "https://arxiv.org/pdf".toList "abcdefg".toList
        ∈ get_arxiv_urls "abcdefg".toList
    ∧ ¬∀ c ∈ "abcdefg".toList, c.isDigit := by
  decide

/-- C8 amended: the path-segmented variant is emitted for each base
location exactly when the canonical identifier has length 7 and
contains no period (digitness is not checked); when that test fails,
every candidate is one of the three non-segmented forms.  For
`"9806072"` each base location gets its `.../98/06072.pdf` entry; for
`"1503.06237"` the unversioned and default-version forms appear for
every base location and no path-segmented variant appears. -/
theorem path_variant_characterization (arxiv_id : PyStr) :
    ((normalize_arxiv_id arxiv_id).1.length = OLD_FORMAT_LENGTH
        ∧ '.' ∉ (normalize_arxiv_id arxiv_id).1 →
      ∀ base ∈ BASE_URLS,
        pathVariant base (normalize_arxiv_id arxiv_id).1 ∈ get_arxiv_urls arxiv_id)
    ∧ (¬((normalize_arxiv_id arxiv_id).1.length = OLD_FORMAT_LENGTH
        ∧ '.' ∉ (normalize_arxiv_id arxiv_id).1) →
      ∀ u ∈ get_arxiv_urls arxiv_id, ∃ base ∈ BASE_URLS,
        u = base ++ '/' :: (normalize_arxiv_id arxiv_id).1 ++ ".pdf".toList
        ∨ u = base ++ '/' :: (normalize_arxiv_id arxiv_id).1
              ++ 'v' :: (arxiv_id.splitOn 'v').getD 1 [] ++ ".pdf".toList
        ∨ u = base ++ '/' :: (normalize_arxiv_id arxiv_id).1
              ++ DEFAULT_VERSION ++ ".pdf".toList)
    ∧ (∀ base ∈ BASE_URLS,
        pathVariant base "9806072".toList ∈ get_arxiv_urls "9806072".toList)
    ∧ (∀ base ∈ BASE_URLS,
        (base ++ '/' :: "1503.06237".toList ++ ".pdf".toList)
            ∈ get_arxiv_urls "1503.06237".toList
        ∧ (base ++ '/' :: "1503.06237".toList ++ DEFAULT_VERSION ++ ".pdf".toList)
            ∈ get_arxiv_urls "1503.06237".toList
        ∧ pathVariant base "1503.06237".toList ∉ get_arxiv_urls "1503.06237".toList) := by
  refine ⟨fun hc base hbase => ?_, fun hc u hu => ?_, by decide, by decide⟩
  · rw [get_arxiv_urls, mem_dedupFirst]
    refine ⟨?_, List.not_mem_nil _⟩
    rw [rawUrls, List.mem_flatMap]
    refine ⟨base, hbase, ?_⟩
    simp only [urlsForBase, List.mem_append]
    refine Or.inr ?_
    rw [if_pos hc]
    exact List.mem_cons_self _ _
  · rw [get_arxiv_urls, mem_dedupFirst] at hu
    rw [rawUrls, List.mem_flatMap] at hu
    obtain ⟨⟨base, hbase, hmem⟩, -⟩ := hu
    refine ⟨base, hbase, ?_⟩
    simp only [urlsForBase, List.mem_append] at hmem
    rcases hmem with ((h | h) | h) | h
    · rcases List.mem_cons.mp h with he | he
      · exact Or.inl he
      · exact absurd he (List.not_mem_nil u)
    · obtain ⟨h, -⟩ := mem_of_mem_ite_nil h
      rcases List.mem_cons.mp h with he | he
      · exact Or.inr (Or.inl he)
      · exact absurd he (List.not_mem_nil u)
    · rcases List.mem_cons.mp h with he | he
      · exact Or.inr (Or.inr he)
      · exact absurd he (List.not_mem_nil u)
    · obtain ⟨-, hp⟩ := mem_of_mem_ite_nil h
      exact absurd hp hc

/-- Witness for the amended C8: the length-7, period-free identifier
`"7654321"` gets its path-segmented variant for the first base
location. -/
theorem path_variant_characterization_witness :
    pathVariant "https://arxiv.org/pdf".toList "7654321".toList
      ∈ get_arxiv_urls "7654321".toList :=
  (path_variant_characterization "7654321".toList).1 (by decide)
    "https://arxiv.org/pdf".toList (by decide)

/-! ### Default worker count of the downloader (C3) -/

/-- Counterexample to C3 as stated: the downloader's default worker
count is `min(len(arxiv_ids), cpu_count * 2)`, not
`min(cpu_count * 2, 32)`.  With a single identifier and 4 cores the
code uses 1 worker, not 8; with 100 identifiers and 32 cores it uses
64 workers, above the claimed cap of 32. -/
theorem download_workers_not_capped_at_32 :
    download_all_max_workers 1 (some 4) ≠ min (4 * 2) 32
    ∧ download_all_max_workers 100 (some 32) = 64
    ∧ (64 : Nat) ≠ min (32 * 2) 32 := by
  decide

/-- C3 amended: when no explicit worker count is supplied, the
downloader's pool size is `min(number of identifiers, cores * 2)`
(`cores` falling back to `DEFAULT_CPU_COUNT = 4` when `os.cpu_count()`
is unavailable); it is capped by the identifier count and by twice the
core count, with no cap at 32.  (The `min(cores * 2, 32)` formula
belongs to the chunking and extraction stages, not the downloader.) -/
theorem download_workers_formula (num_ids : Nat) (cpu_count : Option Nat) :
    download_all_max_workers num_ids cpu_count ≤ num_ids
    ∧ download_all_max_workers num_ids cpu_count
        ≤ pyOrNat cpu_count DEFAULT_CPU_COUNT * WORKER_MULTIPLIER
    ∧ (pyOrNat cpu_count DEFAULT_CPU_COUNT * WORKER_MULTIPLIER ≤ num_ids →
        download_all_max_workers num_ids cpu_count
          = pyOrNat cpu_count DEFAULT_CPU_COUNT * WORKER_MULTIPLIER)
    ∧ (num_ids ≤ pyOrNat cpu_count DEFAULT_CPU_COUNT * WORKER_MULTIPLIER →
        download_all_max_workers num_ids cpu_count = num_ids) := by
  refine ⟨Nat.min_le_left _ _, Nat.min_le_right _ _,
    fun h => Nat.min_eq_right h, fun h => Nat.min_eq_left h⟩

/-- Witness for the amended C3: with 100 identifiers and 32 detected
cores the default worker count is 64. -/
theorem download_workers_formula_witness :
    download_all_max_workers 100 (some 32)
      = pyOrNat (some 32) DEFAULT_CPU_COUNT * WORKER_MULTIPLIER :=
  (download_workers_formula 100 (some 32)).2.2.1 (by decide)

/-! ### The embedding attachment loop (C1, C5) -/

theorem generate_embeddings_of_le {α : Type} :
    ∀ (chunks : List (Chunk α)) (encoded : List α), chunks.length ≤ encoded.length →
      generate_embeddings chunks encoded = .ok (List.zipWith withEmbedding chunks encoded)
  | [], _, _ => by simp [generate_embeddings]
  | _ :: _, [], h => by simp at h
  | c :: cs, e :: es, h => by
    have hr := generate_embeddings_of_le cs es (by simpa using h)
    simp [generate_embeddings, hr]

theorem generate_embeddings_of_lt {α : Type} :
    ∀ (chunks : List (Chunk α)) (encoded : List α), encoded.length < chunks.length →
      generate_embeddings chunks encoded =
        .error (List.zipWith withEmbedding chunks encoded ++ chunks.drop encoded.length)
  | [], _, h => by simp at h
  | c :: cs, [], _ => by simp [generate_embeddings]
  | c :: cs, e :: es, h => by
    have hr := generate_embeddings_of_lt cs es (by simpa using h)
    simp [generate_embeddings, hr]

/-- Counterexample to C1 as stated: `generate_embeddings` never checks
the vector count.  With one chunk and two returned vectors (a count
mismatch) the run does not fail and the artifact is written; with two
chunks and one returned vector the run does fail, but the error state
shows the first chunk already carrying its embedding — a partial
attachment. -/
theorem embedding_mismatch_counterexample :
    ([cA].length ≠ ([0, 1] : List Nat).length
      ∧ embed_and_save [cA] [0, 1] = some [withEmbedding cA 0])
    ∧ (([0] : List Nat).length ≠ [cA, cB].length
      ∧ generate_embeddings [cA, cB] [0] = .error [withEmbedding cA 0, cB]
      ∧ withEmbedding cA 0 ≠ cA) := by
  refine ⟨⟨by decide, rfl⟩, ⟨by decide, rfl, by decide⟩⟩

/-- C1 amended: when the embedding service returns fewer vectors than
chunks, the attachment loop raises an index error, the run aborts, and
no artifact is written — but every chunk at a position below the
returned vector count has already had its embedding attached in place
(partial attachment).  When the service returns at least as many
vectors as chunks (including a surplus, which is a count mismatch), no
error is raised and the artifact is written. -/
theorem embedding_count_mismatch {α : Type} (chunks : List (Chunk α)) (encoded : List α) :
    (encoded.length < chunks.length →
      generate_embeddings chunks encoded =
        .error (List.zipWith withEmbedding chunks encoded ++ chunks.drop encoded.length)
      ∧ embed_and_save chunks encoded = none)
    ∧ (chunks.length ≤ encoded.length →
      embed_and_save chunks encoded = some (List.zipWith withEmbedding chunks encoded)) := by
  constructor
  · intro h
    have he := generate_embeddings_of_lt chunks encoded h
    exact ⟨he, by simp [embed_and_save, he]⟩
  · intro h
    have he := generate_embeddings_of_le chunks encoded h
    simp [embed_and_save, he]

/-- Witness for the amended C1 in the fewer-vectors case (two chunks,
one vector). -/
theorem embedding_count_mismatch_witness :
    generate_embeddings [cA, cB] [0] = .error [withEmbedding cA 0, cB]
    ∧ embed_and_save [cA, cB] [0] = none := by
  have h := (embedding_count_mismatch [cA, cB] [0]).1 (by decide)
  simpa using h

/-- Counterexample to C5 as stated: a chunk produced by the chunker is
changed by the embedding stage.  The 60-word document yields one chunk
(`c60`); after `generate_embeddings`, the object's state has the
`embedding` key attached, so it is no longer equal to the chunk the
chunker produced. -/
theorem embedding_mutates_chunker_output :
    chunkWords (α := Nat) 500 100 [] (List.replicate 60 ['w']) = .ok [c60]
    ∧ generate_embeddings [c60] [7] = .ok [withEmbedding c60 7]
    ∧ withEmbedding c60 7 ≠ c60 := by
  refine ⟨rfl, rfl, by decide⟩

/-- C5 amended: the embedding stage mutates the chunker's chunk objects
in place, attaching the `embedding` field to each input chunk and
returning the same collection; it does not copy the input, but the
attachment is the only change — text, metadata, indices and word
offsets are preserved, as are the count and order of the chunks. -/
theorem embedding_attaches_in_place {α : Type} (chunks : List (Chunk α))
    (encoded : List α) (h : chunks.length ≤ encoded.length) :
    generate_embeddings chunks encoded = .ok (List.zipWith withEmbedding chunks encoded)
    ∧ ∀ (c : Chunk α) (e : α),
        (withEmbedding c e).text = c.text
        ∧ (withEmbedding c e).meta = c.meta
        ∧ (withEmbedding c e).chunk_index = c.chunk_index
        ∧ (withEmbedding c e).start_word = c.start_word
        ∧ (withEmbedding c e).end_word = c.end_word
        ∧ (withEmbedding c e).embedding = some e := by
  exact ⟨generate_embeddings_of_le chunks encoded h,
    fun c e => ⟨rfl, rfl, rfl, rfl, rfl, rfl⟩⟩

/-- Witness for the amended C5 (one chunk, one vector). -/
theorem embedding_attaches_in_place_witness :
    generate_embeddings [cA] [5] = .ok (List.zipWith withEmbedding [cA] [5]) :=
  (embedding_attaches_in_place [cA] [5] (by decide)).1

/-! ### Chunker configuration validation (C2) -/

/-- Counterexample to C2 as stated: the constructor accepts
`chunk_size = 100, chunk_overlap = 200` (stride `-100`), and chunking
then runs to completion, silently returning an empty chunk list — the
configuration is never rejected, before or during chunking. -/
theorem stride_not_validated :
    TextChunker_init 100 200 = .ok (100, 200)
    ∧ chunk_text (α := Nat) 100 200 [] "hello world".toList = .ok [] := by
  exact ⟨rfl, rfl⟩

/-- C2 amended: `TextChunker.__init__` performs no validation and
accepts every configuration.  A configuration with
`chunk_size < chunk_overlap` (negative stride) is not rejected:
`chunk_text` runs and returns an empty chunk list for every input.  A
configuration with `chunk_size = chunk_overlap` (zero stride) is also
accepted by the constructor; the `range` call then raises a
`ValueError`, but only when `chunk_text` is invoked.  Only
`chunk_overlap < chunk_size` produces chunks. -/
theorem stride_behavior {α : Type} (chunk_size chunk_overlap : Nat)
    (meta : List (PyStr × PyStr)) (text : PyStr) :
    TextChunker_init chunk_size chunk_overlap = .ok (chunk_size, chunk_overlap)
    ∧ (chunk_size < chunk_overlap →
        chunk_text (α := α) chunk_size chunk_overlap meta text = .ok [])
    ∧ (chunk_size = chunk_overlap →
        chunk_text (α := α) chunk_size chunk_overlap meta text = .error ()) := by
  refine ⟨rfl, fun h => ?_, fun h => ?_⟩
  · have h0 : ((chunk_size : Int) - (chunk_overlap : Int)) ≠ 0 := by omega
    have hneg : ((chunk_size : Int) - (chunk_overlap : Int)) < 0 := by omega
    simp [chunk_text, chunkWords, pyRange0, h0, hneg, buildChunks]
  · have h0 : ((chunk_size : Int) - (chunk_overlap : Int)) = 0 := by omega
    simp [chunk_text, chunkWords, pyRange0, h0]

/-- Witness for the amended C2 at the configurations `(100, 200)` and
`(100, 100)`. -/
theorem stride_behavior_witness :
    chunk_text (α := Nat) 100 200 [] "a b c".toList = .ok []
    ∧ chunk_text (α := Nat) 100 100 [] "a b c".toList = .error () :=
  ⟨(stride_behavior 100 200 [] "a b c".toList).2.1 (by decide),
   (stride_behavior 100 100 [] "a b c".toList).2.2 rfl⟩

/-! ### Words, joining and trimming -/

theorem wordsAux_props : ∀ (s acc : List Char), (∀ ch ∈ acc, ¬ch.isWhitespace) →
    ∀ w ∈ wordsAux s acc, w ≠ [] ∧ ∀ ch ∈ w, ¬ch.isWhitespace
  | [], acc, hacc, w, hw => by
    rw [wordsAux] at hw
    by_cases hne : acc = []
    · rw [if_pos hne] at hw
      exact absurd hw (List.not_mem_nil w)
    · rw [if_neg hne] at hw
      rcases List.mem_cons.mp hw with he | he
      · subst he
        refine ⟨fun hr => hne ?_, fun ch hch => hacc ch (List.mem_reverse.mp hch)⟩
        simpa using congrArg List.reverse hr
      · exact absurd he (List.not_mem_nil w)
  | c :: cs, acc, hacc, w, hw => by
    rw [wordsAux] at hw
    by_cases hws : c.isWhitespace
    · rw [if_pos hws] at hw
      by_cases hne : acc = []
      · rw [if_pos hne] at hw
        exact wordsAux_props cs [] (by simp) w hw
      · rw [if_neg hne] at hw
        rcases List.mem_cons.mp hw with he | ht
        · subst he
          refine ⟨fun hr => hne ?_, fun ch hch => hacc ch (List.mem_reverse.mp hch)⟩
          simpa using congrArg List.reverse hr
        · exact wordsAux_props cs [] (by simp) w ht
    · rw [if_neg hws] at hw
      refine wordsAux_props cs (c :: acc) ?_ w hw
      intro ch hch
      rcases List.mem_cons.mp hch with he | ht
      · exact he ▸ hws
      · exact hacc ch ht

/-- Every word produced by `str.split()` is non-empty and contains no
whitespace character. -/
theorem pySplitWs_props (s : PyStr) :
    ∀ w ∈ pySplitWs s, w ≠ [] ∧ ∀ ch ∈ w, ¬ch.isWhitespace :=
  fun w hw => wordsAux_props s [] (by simp) w hw

theorem countP_dropWhile_ws (s : PyStr) :
    (s.dropWhile Char.isWhitespace).countP (fun c => !c.isWhitespace)
      = s.countP (fun c => !c.isWhitespace) := by
  conv_rhs => rw [← List.takeWhile_append_dropWhile Char.isWhitespace s]
  rw [List.countP_append]
  have h0 : (s.takeWhile Char.isWhitespace).countP (fun c => !c.isWhitespace) = 0 := by
    rw [List.countP_eq_zero]
    intro a ha
    simp [List.mem_takeWhile_imp ha]
  omega

/-- Trimming removes only whitespace: the number of non-whitespace
characters bounds the trimmed length from below. -/
theorem countP_le_pyStrip (s : PyStr) :
    s.countP (fun c => !c.isWhitespace) ≤ (pyStrip s).length := by
  rw [pyStrip]
  calc s.countP (fun c => !c.isWhitespace)
      = (s.dropWhile Char.isWhitespace).countP (fun c => !c.isWhitespace) :=
        (countP_dropWhile_ws s).symm
    _ = ((s.dropWhile Char.isWhitespace).reverse).countP (fun c => !c.isWhitespace) :=
        (List.countP_reverse _ _).symm
    _ = (((s.dropWhile Char.isWhitespace).reverse).dropWhile Char.isWhitespace).countP
          (fun c => !c.isWhitespace) := (countP_dropWhile_ws _).symm
    _ = ((((s.dropWhile Char.isWhitespace).reverse).dropWhile
          Char.isWhitespace).reverse).countP (fun c => !c.isWhitespace) :=
        (List.countP_reverse _ _).symm
    _ ≤ _ := List.countP_le_length _

/-- Joining at least `n` non-empty whitespace-free words produces at
least `n` non-whitespace characters. -/
theorem length_le_countP_pyJoin (sep : PyStr) :
    ∀ ws : List PyStr, (∀ w ∈ ws, w ≠ [] ∧ ∀ ch ∈ w, ¬ch.isWhitespace) →
      ws.length ≤ (pyJoin sep ws).countP (fun c => !c.isWhitespace)
  | [], _ => by simp [pyJoin]
  | [w], h => by
    have hw := h w (List.mem_cons_self w [])
    have hcw : w.countP (fun c => !c.isWhitespace) = w.length :=
      List.countP_eq_length.mpr (fun a ha => by simp [hw.2 a ha])
    have hlen : 1 ≤ w.length := List.length_pos.mpr hw.1
    simpa [pyJoin, hcw] using hlen
  | w :: w' :: ws, h => by
    have hw := h w (List.mem_cons_self _ _)
    have hrec := length_le_countP_pyJoin sep (w' :: ws)
      (fun x hx => h x (List.mem_cons_of_mem _ hx))
    have hcw : w.countP (fun c => !c.isWhitespace) = w.length :=
      List.countP_eq_length.mpr (fun a ha => by simp [hw.2 a ha])
    have hlen : 1 ≤ w.length := List.length_pos.mpr hw.1
    have hj : pyJoin sep (w :: w' :: ws) = w ++ (sep ++ pyJoin sep (w' :: ws)) := by
      simp [pyJoin, List.append_assoc]
    rw [hj, List.countP_append, List.countP_append, hcw]
    simp only [List.length_cons] at *
    omega

/-- A window of more than `MIN_CHUNK_LENGTH` whitespace-free non-empty
words passes the chunker's trimmed-length filter. -/
theorem windowPasses_of_long_window (chunk_size : Nat) (words : List PyStr)
    (hw : ∀ w ∈ words, w ≠ [] ∧ ∀ ch ∈ w, ¬ch.isWhitespace) (i : Nat)
    (hlen : MIN_CHUNK_LENGTH < (windowWords chunk_size words i).length) :
    windowPasses chunk_size words i = true := by
  unfold windowPasses
  refine decide_eq_true ?_
  have hsub : ∀ w ∈ windowWords chunk_size words i,
      w ≠ [] ∧ ∀ ch ∈ w, ¬ch.isWhitespace :=
    fun w hmem => hw w (List.mem_of_mem_drop (List.mem_of_mem_take hmem))
  calc MIN_CHUNK_LENGTH < (windowWords chunk_size words i).length := hlen
    _ ≤ (pyJoin [' '] (windowWords chunk_size words i)).countP
          (fun c => !c.isWhitespace) := length_le_countP_pyJoin _ _ hsub
    _ ≤ (pyStrip (pyJoin [' '] (windowWords chunk_size words i))).length :=
        countP_le_pyStrip _

/-! ### The chunking fold -/

theorem buildChunks_go {α : Type} (chunk_size : Nat) (meta : List (PyStr × PyStr))
    (words : List PyStr) :
    ∀ (starts : List Nat) (acc : List (Chunk α)),
      starts.foldl (chunkStep chunk_size meta words) acc
        = acc ++ buildFrom chunk_size meta words acc.length starts
  | [], acc => by simp [buildFrom]
  | i :: is, acc => by
    rw [List.foldl_cons, buildChunks_go chunk_size meta words is _]
    by_cases h : windowPasses chunk_size words i
    · simp only [chunkStep, buildFrom, if_pos h, List.length_append,
        List.length_cons, List.length_nil]
      simp [List.append_assoc]
    · simp only [chunkStep, buildFrom, if_neg h]

theorem buildChunks_eq_buildFrom {α : Type} (chunk_size : Nat)
    (meta : List (PyStr × PyStr)) (words : List PyStr) (starts : List Nat) :
    buildChunks (α := α) chunk_size meta words starts
      = buildFrom chunk_size meta words 0 starts := by
  simpa using buildChunks_go chunk_size meta words starts []

theorem buildFrom_map_index {α : Type} (chunk_size : Nat)
    (meta : List (PyStr × PyStr)) (words : List PyStr) :
    ∀ (k : Nat) (starts : List Nat),
      (buildFrom (α := α) chunk_size meta words k starts).map Chunk.chunk_index
        = List.range' k (buildFrom (α := α) chunk_size meta words k starts).length
  | k, [] => by simp [buildFrom]
  | k, i :: is => by
    by_cases h : windowPasses chunk_size words i
    · simp only [buildFrom, if_pos h, List.map_cons, List.length_cons, List.range'_succ]
      rw [buildFrom_map_index chunk_size meta words (k + 1) is]
    · simp only [buildFrom, if_neg h]
      exact buildFrom_map_index chunk_size meta words k is

theorem mem_buildFrom {α : Type} {c : Chunk α} (chunk_size : Nat)
    (meta : List (PyStr × PyStr)) (words : List PyStr) :
    ∀ {k : Nat} {starts : List Nat}, c ∈ buildFrom chunk_size meta words k starts →
      c.start_word ∈ starts
      ∧ windowPasses chunk_size words c.start_word = true
      ∧ c.text = pyJoin [' '] (windowWords chunk_size words c.start_word)
      ∧ c.end_word = c.start_word + (windowWords chunk_size words c.start_word).length
  | _, [], h => absurd h (List.not_mem_nil c)
  | k, i :: is, h => by
    by_cases hp : windowPasses chunk_size words i
    · rw [buildFrom, if_pos hp] at h
      rcases List.mem_cons.mp h with he | ht
      · subst he
        exact ⟨List.mem_cons_self _ _, hp, rfl, rfl⟩
      · obtain ⟨h1, h2, h3, h4⟩ := mem_buildFrom chunk_size meta words ht
        exact ⟨List.mem_cons_of_mem _ h1, h2, h3, h4⟩
    · rw [buildFrom, if_neg hp] at h
      obtain ⟨h1, h2, h3, h4⟩ := mem_buildFrom chunk_size meta words h
      exact ⟨List.mem_cons_of_mem _ h1, h2, h3, h4⟩

/-- Under a valid configuration, `chunk_text` succeeds and produces
exactly the surviving windows. -/
theorem chunk_text_ok {α : Type} (chunk_size chunk_overlap : Nat)
    (meta : List (PyStr × PyStr)) (text : PyStr) (h : chunk_overlap < chunk_size) :
    chunk_text (α := α) chunk_size chunk_overlap meta text
      = .ok (buildFrom chunk_size meta (pySplitWs text) 0
          (rangeStep (pySplitWs text).length (chunk_size - chunk_overlap))) := by
  have h0 : ((chunk_size : Int) - (chunk_overlap : Int)) ≠ 0 := by omega
  have hpos : ¬(((chunk_size : Int) - (chunk_overlap : Int)) < 0) := by omega
  have htn : ((chunk_size : Int) - (chunk_overlap : Int)).toNat
      = chunk_size - chunk_overlap := by omega
  simp [chunk_text, chunkWords, pyRange0, h0, hpos, htn, buildChunks_eq_buildFrom]

/-- C6: under a valid configuration, every chunk in the output has
trimmed text length strictly above the minimum-character floor (so any
candidate window with trimmed length ≤ the floor is absent); a window
start whose window fails the filter never appears as a `start_word` of
the output; and the `chunk_index` values form the dense sequence
`0, 1, 2, ...` however many candidate windows were discarded. -/
theorem chunk_filter_and_dense_index {α : Type} (chunk_size chunk_overlap : Nat)
    (meta : List (PyStr × PyStr)) (text : PyStr) (h : chunk_overlap < chunk_size) :
    ∃ cs : List (Chunk α),
      chunk_text chunk_size chunk_overlap meta text = .ok cs
      ∧ (∀ c ∈ cs, MIN_CHUNK_LENGTH < (pyStrip c.text).length)
      ∧ (∀ i ∈ rangeStep (pySplitWs text).length (chunk_size - chunk_overlap),
          windowPasses chunk_size (pySplitWs text) i = false →
            i ∉ cs.map Chunk.start_word)
      ∧ cs.map Chunk.chunk_index = List.range cs.length := by
  refine ⟨buildFrom chunk_size meta (pySplitWs text) 0
      (rangeStep (pySplitWs text).length (chunk_size - chunk_overlap)),
    chunk_text_ok chunk_size chunk_overlap meta text h, ?_, ?_, ?_⟩
  · intro c hc
    obtain ⟨-, h2, h3, -⟩ := mem_buildFrom chunk_size meta (pySplitWs text) hc
    rw [h3]
    exact of_decide_eq_true h2
  · intro i _ hfail hmem
    obtain ⟨c, hc, hceq⟩ := List.mem_map.mp hmem
    obtain ⟨-, h2, -, -⟩ := mem_buildFrom chunk_size meta (pySplitWs text) hc
    rw [hceq] at h2
    rw [h2] at hfail
    simp at hfail
  · rw [buildFrom_map_index, List.range_eq_range']

/-- Witness for C6: the two-word document `"a b"` at window size 500,
overlap 100 (both windows fail the 50-character floor, so the output is
empty and all conjuncts are checkable). -/
theorem chunk_filter_and_dense_index_witness :
    ∃ cs : List (Chunk Nat),
      chunk_text 500 100 [] "a b".toList = .ok cs
      ∧ (∀ c ∈ cs, MIN_CHUNK_LENGTH < (pyStrip c.text).length)
      ∧ (∀ i ∈ rangeStep (pySplitWs "a b".toList).length (500 - 100),
          windowPasses 500 (pySplitWs "a b".toList) i = false →
            i ∉ cs.map Chunk.start_word)
      ∧ cs.map Chunk.chunk_index = List.range cs.length :=
  chunk_filter_and_dense_index 500 100 [] "a b".toList (by decide)

/-- C7: chunking any document of exactly 1000 whitespace-separated
words at window size 500 and overlap 100 yields windows with
`start_word` offsets exactly `0, 400, 800` and `end_word` offsets
`500, 900, 1000`; the final window (start 800) ends at word 1000 and
its text is the join of exactly the last 200 words of the document. -/
theorem chunk_thousand_word_offsets {α : Type} (meta : List (PyStr × PyStr))
    (text : PyStr) (h : (pySplitWs text).length = 1000) :
    ∃ cs : List (Chunk α),
      chunk_text 500 100 meta text = .ok cs
      ∧ cs.map Chunk.start_word = [0, 400, 800]
      ∧ cs.map Chunk.end_word = [500, 900, 1000]
      ∧ ∃ c : Chunk α, cs.getLast? = some c ∧ c.start_word = 800 ∧ c.end_word = 1000
          ∧ c.text = pyJoin [' '] ((pySplitWs text).drop 800) := by
  have hprops := pySplitWs_props text
  have hwlen : ∀ i : Nat, (windowWords 500 (pySplitWs text) i).length
      = min 500 (1000 - i) := by
    intro i
    rw [windowWords, List.length_take, List.length_drop, h]
  have hp0 : windowPasses 500 (pySplitWs text) 0 = true :=
    windowPasses_of_long_window 500 _ hprops 0 (by rw [hwlen 0]; decide)
  have hp400 : windowPasses 500 (pySplitWs text) 400 = true :=
    windowPasses_of_long_window 500 _ hprops 400 (by rw [hwlen 400]; decide)
  have hp800 : windowPasses 500 (pySplitWs text) 800 = true :=
    windowPasses_of_long_window 500 _ hprops 800 (by rw [hwlen 800]; decide)
  have hrs : rangeStep 1000 (500 - 100) = [0, 400, 800] := by decide
  have hdrop : windowWords 500 (pySplitWs text) 800 = (pySplitWs text).drop 800 := by
    rw [windowWords]
    refine List.take_of_length_le ?_
    rw [List.length_drop, h]
    decide
  have hcs : buildFrom (α := α) 500 meta (pySplitWs text) 0 [0, 400, 800]
      = [⟨pyJoin [' '] (windowWords 500 (pySplitWs text) 0), meta, 0, 0,
            0 + (windowWords 500 (pySplitWs text) 0).length, none⟩,
         ⟨pyJoin [' '] (windowWords 500 (pySplitWs text) 400), meta, 1, 400,
            400 + (windowWords 500 (pySplitWs text) 400).length, none⟩,
         ⟨pyJoin [' '] (windowWords 500 (pySplitWs text) 800), meta, 2, 800,
            800 + (windowWords 500 (pySplitWs text) 800).length, none⟩] := by
    simp [buildFrom, hp0, hp400, hp800]
  refine ⟨buildFrom 500 meta (pySplitWs text) 0 [0, 400, 800], ?_, ?_, ?_, ?_⟩
  · rw [chunk_text_ok 500 100 meta text (by decide), h, hrs]
  · rw [hcs]
    simp
  · rw [hcs]
    simp only [List.map_cons, List.map_nil]
    rw [hwlen 0, hwlen 400, hwlen 800]
    decide
  · refine ⟨⟨pyJoin [' '] (windowWords 500 (pySplitWs text) 800), meta, 2, 800,
        800 + (windowWords 500 (pySplitWs text) 800).length, none⟩, ?_, rfl, ?_, ?_⟩
    · rw [hcs]
      simp
    · show 800 + (windowWords 500 (pySplitWs text) 800).length = 1000
      rw [hwlen 800]
      decide
    · show pyJoin [' '] (windowWords 500 (pySplitWs text) 800) = _
      rw [hdrop]

set_option maxRecDepth 200000 in
/-- Witness for C7: the explicit 1000-word document `wText`. -/
theorem chunk_thousand_word_offsets_witness :
    ∃ cs : List (Chunk Nat),
      chunk_text 500 100 [] wText = .ok cs
      ∧ cs.map Chunk.start_word = [0, 400, 800]
      ∧ cs.map Chunk.end_word = [500, 900, 1000]
      ∧ ∃ c : Chunk Nat, cs.getLast? = some c ∧ c.start_word = 800 ∧ c.end_word = 1000
          ∧ c.text = pyJoin [' '] ((pySplitWs wText).drop 800) :=
  chunk_thousand_word_offsets [] wText (by decide)

/-! ### Idempotent re-runs of the downloader (C4) -/

theorem download_paper_already_present (net : PyStr → Option Response) (fs : Fs)
    (arxiv_id : PyStr)
    (h : ∃ p ∈ fs, matchesGlob (normalize_arxiv_id arxiv_id).2 p.1 = true) :
    ∃ name, download_paper net fs arxiv_id = (.alreadyExists name, 0, fs) := by
  obtain ⟨p, hp, hm⟩ := h
  have hmem : p.1 ∈ (fs.map Prod.fst).filter (matchesGlob (normalize_arxiv_id arxiv_id).2) :=
    List.mem_filter.mpr ⟨List.mem_map.mpr ⟨p, hp, rfl⟩, hm⟩
  cases hfl : (fs.map Prod.fst).filter (matchesGlob (normalize_arxiv_id arxiv_id).2) with
  | nil =>
    rw [hfl] at hmem
    exact absurd hmem (List.not_mem_nil _)
  | cons name rest =>
    refine ⟨name, ?_⟩
    simp only [download_paper, hfl]

theorem download_all_already_go (net : PyStr → Option Response) (fs : Fs) :
    ∀ (ids : List PyStr) (acc : List (PyStr × Outcome)) (reqs : Nat),
      (∀ id ∈ ids, ∃ p ∈ fs, matchesGlob (normalize_arxiv_id id).2 p.1 = true) →
      ∃ outs : List (PyStr × Outcome),
        ids.foldl (fun st id =>
            (st.1 ++ [(id, (download_paper net st.2.2 id).1)],
             st.2.1 + (download_paper net st.2.2 id).2.1,
             (download_paper net st.2.2 id).2.2)) (acc, reqs, fs)
          = (acc ++ outs, reqs, fs)
        ∧ outs.map Prod.fst = ids
        ∧ ∀ pr ∈ outs, ∃ name, pr.2 = Outcome.alreadyExists name
  | [], acc, reqs, _ => ⟨[], by simp, rfl, by simp⟩
  | id :: ids, acc, reqs, h => by
    obtain ⟨name, hname⟩ :=
      download_paper_already_present net fs id (h id (List.mem_cons_self _ _))
    obtain ⟨outs, he, hm, ho⟩ :=
      download_all_already_go net fs ids (acc ++ [(id, .alreadyExists name)]) reqs
        (fun x hx => h x (List.mem_cons_of_mem _ hx))
    refine ⟨(id, .alreadyExists name) :: outs, ?_, by simp [hm], ?_⟩
    · rw [List.foldl_cons]
      simp only [hname, Nat.add_zero]
      rw [he]
      simp
    · intro pr hpr
      rcases List.mem_cons.mp hpr with he' | ht
      · exact ⟨name, by rw [he']⟩
      · exact ho pr ht

/-- C4: whenever the local directory holds, for an identifier, a file
matching the glob `f"{filename}*.pdf"` on its canonical id, the
downloader short-circuits to `alreadyExists` for that identifier,
issuing zero network requests and leaving the directory untouched;
consequently a run of `download_all` over any identifier list whose
identifiers all have matching local files — in particular a second run
after a first run populated the directory — reports `alreadyExists` for
every identifier, performs zero network requests in total, and leaves
the directory unchanged. -/
theorem second_run_already_present (net : PyStr → Option Response) (fs : Fs) :
    (∀ arxiv_id : PyStr,
        (∃ p ∈ fs, matchesGlob (normalize_arxiv_id arxiv_id).2 p.1 = true) →
        ∃ name, download_paper net fs arxiv_id = (.alreadyExists name, 0, fs))
    ∧ ∀ ids : List PyStr,
        (∀ id ∈ ids, ∃ p ∈ fs, matchesGlob (normalize_arxiv_id id).2 p.1 = true) →
        ∃ outs : List (PyStr × Outcome),
          download_all net fs ids = (outs, 0, fs)
          ∧ outs.map Prod.fst = ids
          ∧ ∀ pr ∈ outs, ∃ name, pr.2 = Outcome.alreadyExists name := by
  refine ⟨download_paper_already_present net fs, fun ids h => ?_⟩
  obtain ⟨outs, he, hm, ho⟩ := download_all_already_go net fs ids [] 0 h
  refine ⟨outs, ?_, hm, ho⟩
  simp only [download_all]
  simpa using he

/-- Witness for C4: one identifier whose PDF is already present, over a
network that fails every request. -/
theorem second_run_already_present_witness :
    ∃ outs : List (PyStr × Outcome),
      download_all netNone fsOne ["9806072".toList] = (outs, 0, fsOne)
      ∧ outs.map Prod.fst = ["9806072".toList]
      ∧ ∀ pr ∈ outs, ∃ name, pr.2 = Outcome.alreadyExists name :=
  (second_run_already_present netNone fsOne).2 ["9806072".toList] (by decide)

end QuarkQuery
